import Mathlib

/-!
A verification development for the occurrence-matching engine of the
eventstack repository (file app/api/search/route.js and its sibling route
variants).  The JavaScript code is shallowly embedded: every definition
below mirrors one source function.  Geographic distance (haversineMiles)
is real-valued trigonometry in the source; every embedded function that
consumes it takes the distance function as an explicit parameter of type
Dist, so the theorems quantify over the distance function and hold in
particular for the haversine instance.  Calendar dates are the canonical
zero-padded YYYY-MM-DD strings exchanged with the provider, embedded as
triples of numerals; rendering them with dateStr recovers the exact
string the source manipulates, so string comparison and string-keyed
deduplication in the source is mirrored faithfully.
-/

set_option allowUnsafeReducibility true

set_option maxRecDepth 100000

attribute [local semireducible] Rat.add Rat.sub Rat.neg Rat.mul Rat.div Rat.inv Rat.normalize

namespace EventStack

/-- Lowercase a string character by character, the toLowerCase of the
source. -/
def lowerStr (s : String) : String := String.mk (s.data.map Char.toLower)

/-- Whitespace for trimming. -/
def isWs (c : Char) : Bool := c = ' ' || c = '\t' || c = '\n' || c = '\r'

/-- Trim leading and trailing whitespace, the trim of the source. -/
def trimStr (s : String) : String :=
  String.mk (((s.data.dropWhile isWs).reverse.dropWhile isWs).reverse)

/-- Split a character list on the colon separator. -/
def splitColonAux : List Char → List Char → List String
  | [], acc => [String.mk acc.reverse]
  | c :: rest, acc =>
    if c = ':' then String.mk acc.reverse :: splitColonAux rest []
    else splitColonAux rest (c :: acc)

/-- The split of the source on the colon separator. -/
def splitColon (s : String) : List String := splitColonAux s.data []

/-- Lexicographic strict order on character lists, the string order of
the source runtime. -/
def charListLt : List Char → List Char → Bool
  | [], [] => false
  | [], _ :: _ => true
  | _ :: _, [] => false
  | a :: as, b :: bs => decide (a < b) || (decide (a = b) && charListLt as bs)

/-- Strict string comparison. -/
def strLt (s t : String) : Bool := charListLt s.data t.data

/-- Non-strict string comparison. -/
def strLe (s t : String) : Bool := !(strLt t s)

/-- Join strings with a separator, the join of the source. -/
def joinWith (sep : String) : List String → String
  | [] => ""
  | x :: rest => rest.foldl (fun acc y => acc ++ sep ++ y) x

/-- Stable insertion into a sorted list under a boolean comparison. -/
def insertBy (le : α → α → Bool) (a : α) : List α → List α
  | [] => [a]
  | b :: l => if le a b then a :: b :: l else b :: insertBy le a l

/-- The stable sort of the source runtime, embedded as insertion sort:
for the consistent key-derived comparators used here the stable sorted
permutation is unique, so this is extensionally the sort the source
calls. -/
def sortBy (le : α → α → Bool) (l : List α) : List α :=
  l.foldr (insertBy le) []

/-- A calendar-date triple, standing for the zero-padded string
produced by dateStr.  The component bound checked by the isYMD regex of
the source (four digits, dash, two digits, dash, two digits) is tested
by isYMDo below rather than baked into the type. -/
structure Ymd where
  y : Nat
  m : Nat
  d : Nat
deriving DecidableEq

/-- A time-of-day triple, standing for the HH:MM:SS string of
dates.start.localTime. -/
structure Hms where
  hh : Nat
  mm : Nat
  ss : Nat
deriving DecidableEq

/-- Left-pad a numeral with zeros to the given width, as the provider
formats date and time components. -/
def pad (width n : Nat) : String :=
  let s := toString n
  if s.length < width then String.mk (List.replicate (width - s.length) '0') ++ s else s

/-- Render a date triple as the YYYY-MM-DD string it stands for. -/
def dateStr (x : Ymd) : String :=
  pad 4 x.y ++ "-" ++ pad 2 x.m ++ "-" ++ pad 2 x.d

/-- The raw localDate string of an event: empty when the field is
absent. -/
def optDateStr : Option Ymd → String
  | none => ""
  | some x => dateStr x

/-- Render a time triple as the HH:MM:SS string it stands for. -/
def timeStr (t : Hms) : String :=
  pad 2 t.hh ++ ":" ++ pad 2 t.mm ++ ":" ++ pad 2 t.ss

/-- The raw localTime string of an event: empty when the field is
absent. -/
def optTimeStr : Option Hms → String
  | none => ""
  | some t => timeStr t

/-- Source isYMD: the date field is present and matches the
four-two-two digit shape. -/
def isYMDo : Option Ymd → Bool
  | none => false
  | some x => x.y ≤ 9999 && x.m ≤ 99 && x.d ≤ 99

/-- Days from the epoch of a proleptic Gregorian civil date (the
days-from-civil algorithm), month in 1..12, day possibly out of range
exactly as Date.UTC accepts it. -/
def daysFromCivil (y m d : Int) : Int :=
  let yy := if m ≤ 2 then y - 1 else y
  let era := Int.fdiv yy 400
  let yoe := yy - era * 400
  let mp := if 2 < m then m - 3 else m + 9
  let doy := Int.fdiv (153 * mp + 2) 5 + d - 1
  let doe := yoe * 365 + Int.fdiv yoe 4 - Int.fdiv yoe 100 + doy
  era * 146097 + doe - 719468

/-- Source parseLocalDateToUTC composed with getTime, divided down to
days: the epoch day number of a date triple, with the out-of-range
month normalization Date.UTC performs. -/
def jsDayNum (x : Ymd) : Int :=
  let mi : Int := (x.m : Int) - 1
  let yn : Int := (x.y : Int) + Int.fdiv mi 12
  let mn : Int := mi - 12 * Int.fdiv mi 12
  daysFromCivil yn (mn + 1) (x.d : Int)

/-- Source diffDaysSigned: null when either date is missing, else the
signed whole-day difference from the first date to the second. -/
def diffDaysSigned : Option Ymd → Option Ymd → Option Int
  | some a, some b => some (jsDayNum b - jsDayNum a)
  | _, _ => none

/-- Source diffDaysAbs. -/
def diffDaysAbs (a b : Option Ymd) : Option Int :=
  (diffDaysSigned a b).map (fun s => |s|)

/-- JavaScript string-or idiom x || y for strings, where the empty
string is the falsy case. -/
def jsOr (a b : String) : String := if a = "" then b else a

/-- The parsed pick shapes produced by parsePickOrRaw. -/
inductive PickBase where
  | team (league attractionId name : String)
  | artist (attractionId name : String)
  | genre (bucket name : String)
  | raw (name : String)
deriving DecidableEq

/-- A pick together with its slot tag; slot is the empty string when
the field was never assigned (single mode), and p1, p2 or p3 in
overlap mode. -/
structure Pick where
  base : PickBase
  slot : String := ""
deriving DecidableEq

/-- Source isEntityPick. -/
def isEntityPick : PickBase → Bool
  | .team _ _ _ => true
  | .artist _ _ => true
  | _ => false

/-- The attractionId field of a pick, empty for kinds without one. -/
def attractionIdOf : PickBase → String
  | .team _ aid _ => aid
  | .artist aid _ => aid
  | _ => ""

/-- The name field of a pick. -/
def nameOf : PickBase → String
  | .team _ _ n => n
  | .artist _ n => n
  | .genre _ n => n
  | .raw n => n

/-- Source pickKey, including the slot suffix when the slot tag is
set; the argument is optional because the source tolerates a missing
origin pick. -/
def pickKey : Option Pick → String
  | none => ""
  | some p =>
    let slotSfx := if p.slot = "" then "" else "|slot:" ++ p.slot
    match p.base with
    | .team league aid name => "team:" ++ league ++ ":" ++ jsOr aid name ++ slotSfx
    | .artist aid name => "artist:" ++ jsOr aid name ++ slotSfx
    | .genre bucket name => "genre:" ++ bucket ++ ":" ++ name ++ slotSfx
    | .raw name => "raw:" ++ name ++ slotSfx

/-- The first embedded venue of an event; every field is the trimmed
string the source extracts, empty when absent, and coordinates are
exact numbers or none when absent or not finite. -/
structure Venue where
  vid : String := ""
  vname : String := ""
  city : String := ""
  region : String := ""
  lat : Option ℚ := none
  lon : Option ℚ := none
deriving DecidableEq

/-- An embedded attraction record with id and name. -/
structure Attraction where
  aid : String
  aname : String
deriving DecidableEq

/-- The canonical event record the engine consumes: provider id, name,
local date and time, first venue, ticket url (empty when absent),
classification genre and subgenre names, embedded attractions, and the
origin pick attached by the handler. -/
structure Event where
  eid : String := ""
  ename : String := ""
  localDate : Option Ymd := none
  localTime : Option Hms := none
  venue : Venue := {}
  url : String := ""
  classifications : List (String × String) := []
  attractions : List Attraction := []
  pick : Option Pick := none
deriving DecidableEq

/-- Source hasTicketLink. -/
def hasTicketLink (e : Event) : Bool := e.url ≠ ""

/-- Source dedupeKeyForEvent: provider id keyed, slot-suffixed when the
origin pick carries a slot tag; otherwise the composite
name-date-time-place key. -/
def dedupeKeyForEvent (e : Event) : String :=
  let slot := match e.pick with
    | none => ""
    | some p => p.slot
  if e.eid ≠ "" then
    if slot ≠ "" then "id:" ++ e.eid ++ "|slot:" ++ slot else "id:" ++ e.eid
  else
    let place := if e.venue.vid ≠ "" then "vid:" ++ e.venue.vid
      else "v:" ++ lowerStr e.venue.vname ++ "|c:" ++ lowerStr e.venue.city
    let base := "cmp:" ++ lowerStr e.ename ++ "|" ++ optDateStr e.localDate ++ "|" ++
      optTimeStr e.localTime ++ "|" ++ place
    if slot ≠ "" then base ++ "|slot:" ++ slot else base

/-- String comparison of rendered dates, the order the source obtains
by sorting date strings. -/
def dleB (a b : Ymd) : Bool := strLe (dateStr a) (dateStr b)

/-- Source uniqueSortedDates: the distinct present dates of a list of
events, sorted by their string rendering. -/
def uniqueSortedDates (events : List Event) : List Ymd :=
  sortBy dleB ((events.filterMap (fun e => e.localDate)).dedup)

/-- Source occurrenceEarliestDate. -/
def occurrenceEarliestDate (events : List Event) : String :=
  match (uniqueSortedDates events).head? with
  | some d => dateStr d
  | none => "9999-12-31"

/-- Source occurrencePickCoverageCount: the number of distinct pick
keys among the origin picks of the events. -/
def occurrencePickCoverageCount (events : List Event) : Nat :=
  ((events.map (fun e => pickKey e.pick)).dedup).length

/-- Source occurrenceDistinctDateCount. -/
def occurrenceDistinctDateCount (events : List Event) : Nat :=
  (uniqueSortedDates events).length

/-- Source occurrenceSpanDays: absolute day difference between the
first and last distinct dates, zero for an empty date list. -/
def occurrenceSpanDays (events : List Event) : Int :=
  let dates := uniqueSortedDates events
  match dates.head?, dates.getLast? with
  | some a, some b => |jsDayNum b - jsDayNum a|
  | _, _ => 0

/-- The type of the distance function the clustering consumes: the
source passes haversineMiles (lat1, lon1, lat2, lon2 in degrees,
statute miles out); the embedding keeps it abstract and exact. -/
abbrev Dist := ℚ → ℚ → ℚ → ℚ → ℚ

/-- Source eventMetaForOccurrenceKey fused with the dedupe key, the
record the clustering loop prepares per event. -/
structure Meta where
  e : Event
  key : String
  date : Option Ymd
  lat : Option ℚ
  lon : Option ℚ
deriving DecidableEq

/-- Build the per-event meta record: the dedupe key, the raw date, and
coordinates only when both are present. -/
def metaOf (e : Event) : Meta :=
  let hasCoords := e.venue.lat.isSome && e.venue.lon.isSome
  { e := e
    key := dedupeKeyForEvent e
    date := e.localDate
    lat := if hasCoords then e.venue.lat else none
    lon := if hasCoords then e.venue.lon else none }

/-- The meta list the builder iterates over (entries with an empty key
are filtered, as in the source). -/
def metasOf (allEvents : List Event) : List Meta :=
  (allEvents.map metaOf).filter (fun x => x.key ≠ "")

/-- The anchor eligibility test of the builder: a date and both
coordinates. -/
def anchorOK (a : Meta) : Bool :=
  a.date.isSome && a.lat.isSome && a.lon.isSome

/-- The membership test of the overlap builder for a non-anchor event
b against the anchor a: date and coordinates present, signed day
difference from the anchor within 0..maxDiffDays, and distance from
the anchor at most maxMiles. -/
def admits (dist : Dist) (maxMiles : ℚ) (maxDiffDays : Int) (a b : Meta) : Bool :=
  b.date.isSome && b.lat.isSome && b.lon.isSome &&
  (match diffDaysSigned a.date b.date with
   | none => false
   | some s => decide (0 ≤ s) && decide (s ≤ maxDiffDays)) &&
  (match a.lat, a.lon, b.lat, b.lon with
   | some la, some lo, some lb, some lob => decide (dist la lo lb lob ≤ maxMiles)
   | _, _, _, _ => false)

/-- Insertion-ordered string-keyed map set, the Map.set semantics of
the source: an existing key keeps its position and takes the new
value, a new key is appended. -/
def mapSet (m : List (String × Meta)) (k : String) (v : Meta) : List (String × Meta) :=
  if m.any (fun p => p.1 = k) then
    m.map (fun p => if p.1 = k then (k, v) else p)
  else m ++ [(k, v)]

/-- The inner loop of the overlap builder: starting from the anchor
alone, walk every other index and set each admitted event under its
dedupe key. -/
def clusterFor (dist : Dist) (maxMiles : ℚ) (maxDiffDays : Int)
    (metas : List Meta) (i : Nat) (a : Meta) : List (String × Meta) :=
  (metas.enum).foldl
    (fun acc jb =>
      if jb.1 = i then acc
      else if admits dist maxMiles maxDiffDays a jb.2 then mapSet acc jb.2.key jb.2
      else acc)
    [(a.key, a)]

/-- The member events of a cluster, in map value order. -/
def clusterEvents (c : List (String × Meta)) : List Event :=
  c.map (fun p => p.2.e)

/-- The cluster identity key: the sorted dedupe keys joined by a
bar. -/
def occKeyOf (c : List (String × Meta)) : String :=
  joinWith "|" (sortBy strLe (c.map Prod.fst))

/-- Map set-if-absent for the occurrence map of the builder. -/
def mapSetIfAbsent (m : List (String × List Event)) (k : String) (v : List Event) :
    List (String × List Event) :=
  if m.any (fun p => p.1 = k) then m else m ++ [(k, v)]

/-- The span clamp of the builder: safeSpanDays. -/
def safeSpanOf (effectiveDays : Int) : Int := max 1 effectiveDays

/-- The anchor-relative day window of the builder: maxDiffDays. -/
def maxDiffOf (effectiveDays : Int) : Int := max 0 (safeSpanOf effectiveDays - 1)

/-- The final comparator of the builder as a boolean order: coverage
descending, then member count descending, then earliest member date
string ascending. -/
def occLe (A B : List Event) : Bool :=
  let ca := occurrencePickCoverageCount A
  let cb := occurrencePickCoverageCount B
  decide (cb < ca) ||
  (decide (ca = cb) &&
    (decide (B.length < A.length) ||
     (decide (A.length = B.length) &&
      strLe (occurrenceEarliestDate A) (occurrenceEarliestDate B))))

/-- One step of the anchor loop of the overlap builder: seed a cluster
at an eligible anchor, apply the coverage, distinct-date and span
guards, and record the cluster under its identity key if new. -/
def buildStep (dist : Dist) (maxMiles : ℚ) (effectiveDays : Int) (metas : List Meta)
    (acc : List (String × List Event)) (ia : Nat × Meta) : List (String × List Event) :=
  if anchorOK ia.2 then
    let c := clusterFor dist maxMiles (maxDiffOf effectiveDays) metas ia.1 ia.2
    let occList := clusterEvents c
    if 2 ≤ occurrencePickCoverageCount occList then
      if (occurrenceDistinctDateCount occList : Int) ≤ safeSpanOf effectiveDays then
        if occurrenceSpanDays occList ≤ maxDiffOf effectiveDays then
          mapSetIfAbsent acc (occKeyOf c) occList
        else acc
      else acc
    else acc
  else acc

/-- Source buildOccurrencesByRadiusAndDays: overlap clustering by
radius and day window, cluster identity deduplication, and the final
ranking sort. -/
def buildOccurrencesByRadiusAndDays (dist : Dist) (allEvents : List Event)
    (maxMiles : ℚ) (effectiveDays : Int) : List (List Event) :=
  let metas := metasOf allEvents
  let occMap := (metas.enum).foldl (buildStep dist maxMiles effectiveDays metas) []
  sortBy occLe (occMap.map Prod.snd)

/-- The shape every emitted occurrence has: it is the cluster of some
eligible anchor and it passed the coverage, distinct-date and span
guards. -/
def EmittedOcc (dist : Dist) (maxMiles : ℚ) (effectiveDays : Int) (metas : List Meta)
    (occ : List Event) : Prop :=
  ∃ i a, anchorOK a = true ∧
    occ = clusterEvents (clusterFor dist maxMiles (maxDiffOf effectiveDays) metas i a) ∧
    2 ≤ occurrencePickCoverageCount occ ∧
    (occurrenceDistinctDateCount occ : Int) ≤ safeSpanOf effectiveDays ∧
    occurrenceSpanDays occ ≤ maxDiffOf effectiveDays

/-- Source locationKeyForEvent: the venue id when present, else the
lowercased city, region and venue name joined by bars, else the
unknown marker. -/
def locationKeyForEvent (e : Event) : String :=
  if e.venue.vid ≠ "" then "vid:" ++ e.venue.vid
  else
    let base := joinWith "|"
      (([lowerStr e.venue.city, lowerStr e.venue.region, lowerStr e.venue.vname]).filter
        (fun s => s ≠ ""))
    if base ≠ "" then "loc:" ++ base else "loc:unknown"

/-- Source sortKeyForEvent: the date string, the letter T, then the
time string or the midnight default when the time is absent. -/
def sortKeyForEvent (e : Event) : String :=
  optDateStr e.localDate ++ "T" ++ jsOr (optTimeStr e.localTime) "00:00:00"

/-- The chronological boolean order on events induced by the sort
key. -/
def sortLe (a b : Event) : Bool := strLe (sortKeyForEvent a) (sortKeyForEvent b)

/-- Whether the local date of an event passes the isYMD shape
check. -/
def isYMDe (e : Event) : Bool := isYMDo e.localDate

/-- One step of the run-grouping walk of the single-pick builder. -/
def runsStep (s : List (List Event) × List Event × String) (e : Event) :
    List (List Event) × List Event × String :=
  let k := locationKeyForEvent e
  if s.2.1 = [] then (s.1, [e], k)
  else if k = s.2.2 then (s.1, s.2.1 ++ [e], s.2.2)
  else (s.1 ++ [s.2.1], [e], k)

/-- The closing step of the run walk: push the open run if any. -/
def finishRuns (s : List (List Event) × List Event × String) : List (List Event) :=
  if s.2.1 = [] then s.1 else s.1 ++ [s.2.1]

/-- Source buildOccurrencesSingleByLocationRuns: keep shape-valid
dates, sort chronologically, then cut the sequence into maximal runs
of consecutive events sharing one location key. -/
def buildOccurrencesSingleByLocationRuns (events : List Event) : List (List Event) :=
  finishRuns ((sortBy sortLe (events.filter isYMDe)).foldl runsStep ([], [], ""))

/-- Source getEventGeo: both coordinates or nothing. -/
def geoOf (e : Event) : Option (ℚ × ℚ) :=
  match e.venue.lat, e.venue.lon with
  | some la, some lo => some (la, lo)
  | _, _ => none

/-- Source getAnchorLatLon: the first member with coordinates. -/
def getAnchorLatLon (occ : List Event) : Option (ℚ × ℚ) :=
  occ.findSome? geoOf

/-- The summary record the closest-pair helper emits per event. -/
structure ClosestSummary where
  label : String
  date : Option Ymd
  city : Option String
  region : Option String
  venue : Option String
deriving DecidableEq

/-- Source summarizeEventForClosest. -/
def summarizeEventForClosest (e : Event) (fallbackLabel : String) : ClosestSummary :=
  { label := jsOr fallbackLabel (jsOr (match e.pick with
      | some p => nameOf p.base
      | none => "") "Event")
    date := e.localDate
    city := if e.venue.city ≠ "" then some e.venue.city else none
    region := if e.venue.region ≠ "" then some e.venue.region else none
    venue := if e.venue.vname ≠ "" then some e.venue.vname else none }

/-- The record the closest-pair helper returns. -/
structure ClosestOut where
  miles : ℚ
  daysApart : Int
  p1 : ClosestSummary
  p2 : ClosestSummary
deriving DecidableEq

/-- A closest-pair candidate before the internal earliest-date
tie-break field is stripped. -/
structure Cand where
  out : ClosestOut
  earliest : String
deriving DecidableEq

/-- The floating-point tolerance constant of the closest-pair
comparison, exact. -/
def eps : ℚ := 1 / 1000000000

/-- The replacement test of the closest-pair scan: strictly closer by
more than the tolerance, or within tolerance and better on days apart,
then on the earlier date of the pair. -/
def beats (c b : Cand) : Bool :=
  decide (c.out.miles < b.out.miles - eps) ||
  (decide (|c.out.miles - b.out.miles| ≤ eps) &&
    (decide (c.out.daysApart < b.out.daysApart) ||
     (decide (c.out.daysApart = b.out.daysApart) && strLt c.earliest b.earliest)))

/-- The candidate pairs of the closest-pair search, in loop order:
every first-list event with a shape-valid date and coordinates,
against every second-list event with a shape-valid date whose absolute
day difference fits the window and which has coordinates. -/
def closestCands (dist : Dist) (A B : List Event) (maxDiffDays : Int)
    (labelA labelB : String) : List Cand :=
  (A.filter (fun ea => isYMDe ea && (geoOf ea).isSome)).flatMap (fun ea =>
    B.filterMap (fun eb =>
      if isYMDe eb then
        match diffDaysAbs ea.localDate eb.localDate with
        | none => none
        | some days =>
          if days ≤ maxDiffDays then
            match geoOf ea, geoOf eb with
            | some (la, lo), some (lb, lob) =>
              let da := optDateStr ea.localDate
              let db := optDateStr eb.localDate
              some { out := { miles := dist la lo lb lob, daysApart := days,
                              p1 := summarizeEventForClosest ea labelA,
                              p2 := summarizeEventForClosest eb labelB }
                     earliest := if strLt da db then da else db }
            | _, _ => none
          else none
      else none))

/-- The best-so-far scan of the closest-pair search. -/
def scanBest (cs : List Cand) : Option Cand :=
  cs.foldl
    (fun best c =>
      match best with
      | none => some c
      | some b => if beats c b then some c else some b)
    none

/-- Source findClosestPairWithinDays: null for an empty side or no
candidate, else the scan winner with the internal earliest field
stripped. -/
def findClosestPairWithinDays (dist : Dist) (A B : List Event) (maxDiffDays : Int)
    (labelA labelB : String) : Option ClosestOut :=
  if A.isEmpty || B.isEmpty then none
  else (scanBest (closestCands dist A B maxDiffDays labelA labelB)).map (fun c => c.out)

/-- Strict lexicographic order on closest-pair candidates: distance,
then days apart, then the earlier date string of the pair; the order
the tie-break chain of the source implements when distances are never
within the tolerance without being equal. -/
def candLt (c b : Cand) : Prop :=
  c.out.miles < b.out.miles ∨
    (c.out.miles = b.out.miles ∧
      (c.out.daysApart < b.out.daysApart ∨
        (c.out.daysApart = b.out.daysApart ∧ strLt c.earliest b.earliest = true)))

/-- The corresponding non-strict order. -/
def candLe (c b : Cand) : Prop :=
  candLt c b ∨
    (c.out.miles = b.out.miles ∧ c.out.daysApart = b.out.daysApart ∧ c.earliest = b.earliest)

/-- No two candidates have distances within the tolerance of each
other without being equal. -/
def NoNearTies (cs : List Cand) : Prop :=
  ∀ c ∈ cs, ∀ b ∈ cs, c.out.miles = b.out.miles ∨ eps < |c.out.miles - b.out.miles|

/-- The static genre keyword buckets; a bucket outside the table
expands to the empty keyword list, which matches nothing, exactly the
early false return of the source. -/
def genreExpansion (bucket : String) : List String :=
  if bucket = "Country" then
    ["country", "contemporary country", "country rock", "americana", "bluegrass"]
  else if bucket = "Rock" then
    ["rock", "alternative", "indie", "punk", "grunge", "hard rock"]
  else if bucket = "Pop" then ["pop", "k-pop", "kpop", "j-pop", "jpop"]
  else if bucket = "Rap" then ["rap", "hip hop", "hip-hop", "trap"]
  else if bucket = "Electronic" then
    ["electronic", "edm", "dance", "house", "techno", "trance", "dubstep"]
  else if bucket = "R&B" then
    ["r&b", "rnb", "rhythm and blues", "neo soul", "neo-soul", "soul"]
  else if bucket = "Jazz" then ["jazz", "swing", "bebop", "big band"]
  else if bucket = "Classical" then
    ["classical", "orchestra", "symphony", "opera", "baroque"]
  else if bucket = "Latin" then
    ["latin", "reggaeton", "bachata", "salsa", "cumbia", "mariachi"]
  else if bucket = "Metal" then
    ["metal", "metalcore", "death metal", "black metal", "thrash"]
  else if bucket = "Reggae" then ["reggae", "ska", "dancehall", "dub"]
  else if bucket = "Folk" then ["folk", "singer-songwriter", "traditional"]
  else []

/-- Substring containment, the includes test of the source. -/
def strContains (s sub : String) : Bool :=
  (List.range (s.toList.length + 1)).any (fun i => sub.toList.isPrefixOf (s.toList.drop i))

/-- Source eventMatchesGenreBucket. -/
def eventMatchesGenreBucket (e : Event) (bucket : String) : Bool :=
  let keywords := genreExpansion bucket
  e.classifications.any (fun c =>
    keywords.any (fun k => strContains (lowerStr c.1) k || strContains (lowerStr c.2) k))

/-- Source filterEventsByDateRange: a bound is honored only when it is
a shape-valid date, events outside the bounds or without a shape-valid
date are dropped, and with no usable bound the list passes through
untouched. -/
def filterEventsByDateRange (events : List Event) (sB eB : Option Ymd) : List Event :=
  let sOk := match sB with
    | some sd => if isYMDo (some sd) then some sd else none
    | none => none
  let eOk := match eB with
    | some ed => if isYMDo (some ed) then some ed else none
    | none => none
  match sOk, eOk with
  | none, none => events
  | _, _ =>
    events.filter (fun ev =>
      match ev.localDate with
      | none => false
      | some d =>
        isYMDo (some d) &&
        (match sOk with
         | some sd => !(strLt (dateStr d) (dateStr sd))
         | none => true) &&
        (match eOk with
         | some ed => !(strLt (dateStr ed) (dateStr d))
         | none => true))

/-- Source parsePickOrRaw: colon-splitting of the raw pick string into
team, artist, genre or raw keyword shapes. -/
def parsePickOrRaw (pickStr : String) : Option PickBase :=
  let raw := trimStr pickStr
  if raw = "" then none
  else
    let parts := splitColon raw
    let kind := parts.headD ""
    if kind = "team" then
      if 4 ≤ parts.length then
        some (.team (parts.getD 1 "") (parts.getD 2 "") (joinWith ":" (parts.drop 3)))
      else if 3 ≤ parts.length then
        some (.team (parts.getD 1 "") "" (joinWith ":" (parts.drop 2)))
      else none
    else if kind = "artist" then
      if 2 ≤ parts.length then some (.artist (parts.getD 1 "") "") else none
    else if kind = "genre" then
      some (.genre (parts.getD 1 "") (joinWith ":" (parts.drop 2)))
    else some (.raw raw)

/-- Source ensureAttractionId, with the external attraction resolver
abstracted as a name-to-id function returning the empty string on
failure: only an unresolved team pick with a name is resolved. -/
def ensureAttractionId (resolveTeam : String → String) (p : PickBase) : PickBase :=
  match p with
  | .team league aid name =>
    if aid = "" && name ≠ "" then
      let best := resolveTeam name
      .team league (if best ≠ "" then best else aid) name
    else p
  | _ => p

/-- Source pickLabelFromPick. -/
def pickLabelFromPick : Option PickBase → String
  | none => "Pick"
  | some (.team _ _ name) => jsOr name "Team"
  | some (.genre bucket name) => jsOr bucket (jsOr name "Genre")
  | some (.raw name) => jsOr name "Pick"
  | some (.artist _ name) => jsOr name "Artist"

/-- Source labelFromScheduleEvents: for an artist pick without a name,
infer the label from the first matching embedded attraction of the
schedule. -/
def labelFromScheduleEvents (p : Option PickBase) (events : List Event) : String :=
  let base := pickLabelFromPick p
  match p with
  | some (.artist aid _) =>
    if base ≠ "" && base ≠ "Artist" then base
    else
      match events.findSome? (fun ev =>
        match ev.attractions.find? (fun a => a.aid = aid) with
        | some hit => if hit.aname ≠ "" then some hit.aname else none
        | none => none) with
      | some nm => nm
      | none => base
  | _ => base

/-- An occurrence entry of the response payload: the member events and
the meta fields the handler attaches (mode and location key only in
single mode). -/
structure UiOcc where
  events : List Event
  mode : Option String
  anchor : Option (ℚ × ℚ)
  startYMD : Option Ymd
  endYMD : Option Ymd
  locKey : Option String
deriving DecidableEq

/-- A fallback schedule entry. -/
structure ScheduleOut where
  label : String
  events : List Event
deriving DecidableEq

/-- The fallback payload attached when overlap clustering finds
nothing. -/
structure Fallback where
  mode : String
  schedules : List ScheduleOut
deriving DecidableEq

/-- The closest-pair payload with the day window echoed back. -/
structure ClosestWithin where
  out : ClosestOut
  withinDays : Int
deriving DecidableEq

/-- The response envelope of the search handler (debug payload
omitted). -/
structure Response where
  count : Nat
  occurrences : List UiOcc
  fallback : Option Fallback
  closest : Option ClosestWithin
deriving DecidableEq

/-- The request parameters the handler reads, already coerced the way
the source coerces them: days and radius as numbers with their
defaults, the three raw pick strings, and the optional date range. -/
structure ReqParams where
  days : Int := 3
  radiusMiles : ℚ := 100
  p1 : String := ""
  p2 : String := ""
  p3 : String := ""
  startDate : Option Ymd := none
  endDate : Option Ymd := none
deriving DecidableEq

/-- The clamp of the handler on the requested days before the overlap
builder: one less than the request, floored at one. -/
def effectiveDaysOf (userDays : Int) : Int := max 1 (userDays - 1)

/-- The day window of the closest-pair fallback, derived from the raw
requested days. -/
def closestWindowOf (userDays : Int) : Int := max 1 userDays

/-- The per-pick pipeline of the handler: fetch, date-range filter,
genre filter for genre picks, ticket filter, and origin-pick
attachment. -/
def mappedPoolFor (fetchFor : PickBase → List Event) (resolveTeam : String → String)
    (sB eB : Option Ymd) (p : Pick) : List Event :=
  let pb := ensureAttractionId resolveTeam p.base
  let events := filterEventsByDateRange (fetchFor pb) sB eB
  let filtered := match pb with
    | .genre bucket _ => events.filter (fun e => eventMatchesGenreBucket e bucket)
    | _ => events
  (filtered.filter hasTicketLink).map (fun e => { e with pick := some { base := pb, slot := p.slot } })

/-- The single-favorite detection of the handler from the trimmed raw
pick strings: exactly one side provided, or both sides identical. -/
def singleModeRaw (rawP1Orig rawP2Orig : String) : Bool :=
  (rawP1Orig = "" && rawP2Orig ≠ "") ||
  (rawP1Orig ≠ "" && rawP2Orig = "") ||
  (rawP1Orig ≠ "" && rawP2Orig ≠ "" && rawP1Orig = rawP2Orig)

/-- The same-entity escalation of the handler: two entity picks whose
resolved attraction ids are nonempty and equal. -/
def sameEntityIds (p1r p2r : PickBase) : Bool :=
  isEntityPick p1r && isEntityPick p2r &&
  attractionIdOf p1r ≠ "" && attractionIdOf p2r ≠ "" &&
  attractionIdOf p1r = attractionIdOf p2r

/-- The single-mode branch of the handler: fetch the anchor pick,
build location runs, and shape them for the response. -/
def singleBranch (fetchFor : PickBase → List Event) (resolveTeam : String → String)
    (sB eB : Option Ymd) (anchorPick : PickBase) : Response :=
  let pool := mappedPoolFor fetchFor resolveTeam sB eB { base := anchorPick, slot := "" }
  let occurrences := buildOccurrencesSingleByLocationRuns pool
  let ui : List UiOcc := occurrences.map (fun occ =>
    let dates := uniqueSortedDates occ
    { events := occ
      mode := some "SINGLE_PICK_LOCATION_RUNS"
      anchor := getAnchorLatLon occ
      startYMD := dates.head?
      endYMD := dates.getLast?
      locKey := some (match occ.head? with
        | some e => locationKeyForEvent e
        | none => "loc:unknown") })
  { count := ui.length, occurrences := ui, fallback := none, closest := none }

/-- The slot-tagged picks of the overlap branch. -/
def overlapPicks (p1r p2r : PickBase) (p3r : Option PickBase) : List Pick :=
  [{ base := p1r, slot := "p1" }, { base := p2r, slot := "p2" }] ++
    (match p3r with
     | some b => [({ base := b, slot := "p3" } : Pick)]
     | none => [])

/-- The slot-keyed pools the overlap branch fetches. -/
def overlapPools (fetchFor : PickBase → List Event) (resolveTeam : String → String)
    (sB eB : Option Ymd) (p1r p2r : PickBase) (p3r : Option PickBase) :
    List (String × List Event) :=
  (overlapPicks p1r p2r p3r).map (fun p => (p.slot, mappedPoolFor fetchFor resolveTeam sB eB p))

/-- The pooled event list handed to the overlap builder. -/
def overlapAllEvents (fetchFor : PickBase → List Event) (resolveTeam : String → String)
    (sB eB : Option Ymd) (p1r p2r : PickBase) (p3r : Option PickBase) : List Event :=
  ((overlapPools fetchFor resolveTeam sB eB p1r p2r p3r).map Prod.snd).flatten

/-- The overlap branch of the handler: pool the slotted picks, run the
overlap builder, and on zero occurrences attach the schedules fallback
and the closest pair computed from the raw requested days. -/
def normalBranch (dist : Dist) (fetchFor : PickBase → List Event)
    (resolveTeam : String → String) (sB eB : Option Ymd)
    (userDays : Int) (radiusMiles : ℚ)
    (p1r p2r : PickBase) (p3r : Option PickBase) : Response :=
  let pools := overlapPools fetchFor resolveTeam sB eB p1r p2r p3r
  let allEvents := overlapAllEvents fetchFor resolveTeam sB eB p1r p2r p3r
  let s1 := (pools.filter (fun q => q.1 = "p1")).flatMap Prod.snd
  let s2 := (pools.filter (fun q => q.1 = "p2")).flatMap Prod.snd
  let occurrences := buildOccurrencesByRadiusAndDays dist allEvents radiusMiles
    (effectiveDaysOf userDays)
  let ui : List UiOcc := occurrences.map (fun occ =>
    let dates := uniqueSortedDates occ
    { events := occ
      mode := none
      anchor := getAnchorLatLon occ
      startYMD := dates.head?
      endYMD := dates.getLast?
      locKey := none })
  if ui.length = 0 then
    let s1c := sortBy sortLe s1
    let s2c := sortBy sortLe s2
    let p1Label := labelFromScheduleEvents (some p1r) s1c
    let p2Label := labelFromScheduleEvents (some p2r) s2c
    let windowDays := closestWindowOf userDays
    let best := findClosestPairWithinDays dist s1c s2c (max 0 (windowDays - 1)) p1Label p2Label
    { count := 0
      occurrences := []
      fallback := some { mode := "NO_OVERLAP_SCHEDULES"
                         schedules := [{ label := p1Label, events := s1c },
                                       { label := p2Label, events := s2c }] }
      closest := best.map (fun b => { out := b, withinDays := windowDays }) }
  else
    { count := ui.length, occurrences := ui, fallback := none, closest := none }

/-- Source GET (app/api/search/route.js), with the provider fetch and
the attraction resolver abstracted: parse the effective picks, resolve
them, select single or overlap mode, and dispatch. -/
def routeGET (dist : Dist) (resolveTeam : String → String)
    (fetchFor : PickBase → List Event) (q : ReqParams) : Response :=
  let rawP1Orig := trimStr q.p1
  let rawP2Orig := trimStr q.p2
  let rawP3 := trimStr q.p3
  let p1o := parsePickOrRaw (jsOr rawP1Orig rawP2Orig)
  let p2o := parsePickOrRaw (jsOr rawP2Orig rawP1Orig)
  let p3o := if rawP3 ≠ "" then parsePickOrRaw rawP3 else none
  match p1o, p2o with
  | some p1b, some p2b =>
    let p1r := ensureAttractionId resolveTeam p1b
    let p2r := ensureAttractionId resolveTeam p2b
    let p3r := p3o.map (ensureAttractionId resolveTeam)
    let singleMode := singleModeRaw rawP1Orig rawP2Orig || sameEntityIds p1r p2r
    if singleMode then
      let anchorPick := if rawP1Orig ≠ "" then p1r else if rawP2Orig ≠ "" then p2r else p1r
      singleBranch fetchFor resolveTeam q.startDate q.endDate anchorPick
    else
      normalBranch dist fetchFor resolveTeam q.startDate q.endDate q.days q.radiusMiles
        p1r p2r p3r
  | _, _ => { count := 0, occurrences := [], fallback := none, closest := none }

/-- A concrete distance function for witnesses: the latitude gap.  The
engine treats the distance function as a black box whose output is
only compared against the radius, so any function of this type
exercises the control flow the theorems describe. -/
def dist0 : Dist := fun la _ lb _ => |la - lb|

/-- Witness pick in slot p1. -/
def pA : Pick := { base := .team "NHL" "T1" "Oilers", slot := "p1" }

/-- Witness pick in slot p2. -/
def pB : Pick := { base := .artist "A1" "", slot := "p2" }

/-- Witness pick in slot p3. -/
def pC : Pick := { base := .artist "A2" "", slot := "p3" }

/-- Build a ticket-linked witness event at a latitude. -/
def mkEv (i : String) (dt : Ymd) (la : ℚ) (p : Pick) : Event :=
  { eid := i, ename := i, localDate := some dt,
    venue := { lat := some la, lon := some 0 }, url := "u", pick := some p }

def eA : Event := mkEv "E1" ⟨2024, 5, 1⟩ 0 pA

def eB1 : Event := mkEv "E2" ⟨2024, 5, 1⟩ 50 pB

def eB2 : Event := mkEv "E3" ⟨2024, 5, 1⟩ (-50) pB

def fA : Event := mkEv "F1" ⟨2024, 5, 1⟩ 0 pA

def fB : Event := mkEv "F2" ⟨2024, 5, 1⟩ 10 pB

def fC : Event := mkEv "F3" ⟨2024, 5, 1⟩ 20 pC

def fD : Event := mkEv "F4" ⟨2024, 5, 1⟩ 40 pA

/-- A resolver that never finds an attraction id. -/
def resolve0 : String → String := fun _ => ""

def vLoc : Venue := { vid := "V1", lat := some 0, lon := some 0 }

def g1 : Event := { eid := "G1", localDate := some ⟨2024, 5, 1⟩, venue := vLoc, url := "u" }

def g2 : Event := { eid := "G2", localDate := some ⟨2024, 5, 3⟩, venue := vLoc, url := "u" }

/-- Fetch stub for the day-window fixture: one event per team. -/
def fetch3 : PickBase → List Event := fun pb =>
  if pb = .team "NHL" "T1" "A" then [g1]
  else if pb = .team "NHL" "T2" "B" then [g2]
  else []

/-- A three-day request for two distinct teams whose events lie two
days apart at the same venue. -/
def q3 : ReqParams := { days := 3, radiusMiles := 100, p1 := "team:NHL:T1:A", p2 := "team:NHL:T2:B" }

def g1p : Event := { g1 with pick := some { base := .team "NHL" "T1" "A", slot := "p1" } }

def g2p : Event := { g2 with pick := some { base := .team "NHL" "T2" "B", slot := "p2" } }

def vA : Venue := { vid := "VA", lat := some 0, lon := some 0 }

def vB : Venue := { vid := "VB", lat := some 1, lon := some 0 }

def h1 : Event := { eid := "H1", localDate := some ⟨2024, 5, 1⟩, venue := vA, url := "u" }

def h2 : Event := { eid := "H2", localDate := some ⟨2024, 6, 1⟩, venue := vB, url := "u" }

/-- Fetch stub for the same-entity fixture: the schedule of team T1 at
two venues. -/
def fetch4 : PickBase → List Event := fun pb =>
  if pb = .team "NHL" "T1" "Oilers" then [h1, h2] else []

/-- Two different raw pick strings that resolve to the same team
id. -/
def q4 : ReqParams := { days := 3, radiusMiles := 100, p1 := "team:NHL:T1:Oilers", p2 := "team:NHL:T1:Oil" }

/-- Two distinct non-entity raw keyword picks. -/
def q9 : ReqParams := { p1 := "alpha", p2 := "beta" }

def sh1 : Event := { eid := "S1", localDate := some ⟨2024, 5, 1⟩, venue := vA, url := "u", pick := some pA }

def sh2 : Event := { eid := "S1", localDate := some ⟨2024, 5, 1⟩, venue := vA, url := "u", pick := some pB }

def t1 : Event := { eid := "T1", localDate := some ⟨2024, 5, 1⟩, localTime := none, venue := vA, url := "u" }

def t2 : Event := { eid := "T2", localDate := some ⟨2024, 5, 1⟩, localTime := some ⟨19, 0, 0⟩, venue := vA, url := "u" }

def cA : Event := { eid := "C0", localDate := some ⟨2024, 5, 1⟩, venue := { lat := some 0, lon := some 0 }, url := "u" }

def cB1 : Event := { eid := "C1", localDate := some ⟨2024, 5, 6⟩, venue := { lat := some 10, lon := some 0 }, url := "u" }

/-- An event half a tolerance farther than cB1 but on the anchor
date. -/
def cB2 : Event := { eid := "C2", localDate := some ⟨2024, 5, 1⟩, venue := { lat := some (10 + 1 / 2000000000), lon := some 0 }, url := "u" }

/-- An event clearly farther than cB1, for the no-near-tie witness. -/
def cB3 : Event := { eid := "C3", localDate := some ⟨2024, 5, 1⟩, venue := { lat := some 30, lon := some 0 }, url := "u" }

/-- A later event at a second venue, giving a second location run. -/
def u1 : Event := { eid := "U1", localDate := some ⟨2024, 6, 2⟩, venue := vB, url := "u" }

theorem mem_insertBy {α : Type} (le : α → α → Bool) (a x : α) (l : List α) :
    x ∈ insertBy le a l ↔ x = a ∨ x ∈ l := by
  induction l with
  | nil => simp [insertBy]
  | cons b l ih =>
    by_cases h : le a b
    · simp [insertBy, h]
    · simp only [insertBy, h]
      simp only [Bool.false_eq_true, if_false, List.mem_cons, ih]
      tauto

theorem insertBy_perm {α : Type} (le : α → α → Bool) (a : α) (l : List α) :
    List.Perm (insertBy le a l) (a :: l) := by
  induction l with
  | nil => simp [insertBy]
  | cons b l ih =>
    by_cases h : le a b
    · simp [insertBy, h]
    · simp only [insertBy, h, Bool.false_eq_true, if_false]
      exact (ih.cons b).trans (List.Perm.swap a b l)

theorem sortBy_perm {α : Type} (le : α → α → Bool) (l : List α) : List.Perm (sortBy le l) l := by
  induction l with
  | nil => simp [sortBy]
  | cons a l ih => exact (insertBy_perm le a (sortBy le l)).trans (ih.cons a)

theorem mem_sortBy {α : Type} (le : α → α → Bool) (x : α) (l : List α) :
    x ∈ sortBy le l ↔ x ∈ l :=
  (sortBy_perm le l).mem_iff

theorem pairwise_insertBy {α : Type} (le : α → α → Bool)
    (htrans : ∀ x y z, le x y = true → le y z = true → le x z = true)
    (htot : ∀ x y, le x y = true ∨ le y x = true)
    (a : α) (l : List α) (h : l.Pairwise (fun x y => le x y = true)) :
    (insertBy le a l).Pairwise (fun x y => le x y = true) := by
  induction l with
  | nil => simp [insertBy]
  | cons b l ih =>
    rcases List.pairwise_cons.mp h with ⟨hb, hl⟩
    by_cases hab : le a b
    · simp only [insertBy, hab, if_true]
      refine List.pairwise_cons.mpr ⟨?_, h⟩
      intro y hy
      rcases List.mem_cons.mp hy with rfl | hyl
      · exact hab
      · exact htrans a b y hab (hb y hyl)
    · simp only [insertBy, hab, Bool.false_eq_true, if_false]
      refine List.pairwise_cons.mpr ⟨?_, ih hl⟩
      intro y hy
      rcases (mem_insertBy le a y l).mp hy with rfl | hyl
      · rcases htot y b with hyb | hby
        · exact absurd hyb hab
        · exact hby
      · exact hb y hyl

theorem pairwise_sortBy {α : Type} (le : α → α → Bool)
    (htrans : ∀ x y z, le x y = true → le y z = true → le x z = true)
    (htot : ∀ x y, le x y = true ∨ le y x = true) (l : List α) :
    (sortBy le l).Pairwise (fun x y => le x y = true) := by
  induction l with
  | nil => simp [sortBy]
  | cons a l ih => exact pairwise_insertBy le htrans htot a (sortBy le l) ih

theorem charListLt_trichotomy (a b : List Char) :
    charListLt a b = true ∨ a = b ∨ charListLt b a = true := by
  induction a generalizing b with
  | nil => cases b <;> simp [charListLt]
  | cons x xs ih =>
    cases b with
    | nil => simp [charListLt]
    | cons y ys =>
      rcases lt_trichotomy x y with hxy | hxy | hxy
      · left
        simp [charListLt, hxy]
      · subst hxy
        rcases ih ys with h | h | h
        · left
          simp [charListLt, h]
        · subst h
          right
          left
          rfl
        · right
          right
          simp [charListLt, h]
      · right
        right
        simp [charListLt, hxy]

theorem charListLt_asymm (a b : List Char) :
    charListLt a b = true → charListLt b a = true → False := by
  induction a generalizing b with
  | nil => cases b <;> simp [charListLt]
  | cons x xs ih =>
    cases b with
    | nil => simp [charListLt]
    | cons y ys =>
      simp only [charListLt, Bool.or_eq_true, Bool.and_eq_true, decide_eq_true_eq]
      rintro (hxy | ⟨rfl, hab⟩) (hyx | ⟨hyx, hba⟩)
      · exact absurd hyx (lt_asymm hxy)
      · exact absurd hxy (by simp [hyx])
      · exact absurd hyx (lt_irrefl x)
      · exact ih ys hab hba

theorem charListLt_trans (a b c : List Char) :
    charListLt a b = true → charListLt b c = true → charListLt a c = true := by
  induction a generalizing b c with
  | nil =>
    cases b with
    | nil => simp [charListLt]
    | cons y ys => cases c <;> simp [charListLt]
  | cons x xs ih =>
    cases b with
    | nil => simp [charListLt]
    | cons y ys =>
      cases c with
      | nil => simp [charListLt]
      | cons z zs =>
        simp only [charListLt, Bool.or_eq_true, Bool.and_eq_true, decide_eq_true_eq]
        rintro (hxy | ⟨rfl, hab⟩) (hyz | ⟨rfl, hbc⟩)
        · exact Or.inl (lt_trans hxy hyz)
        · exact Or.inl hxy
        · exact Or.inl hyz
        · exact Or.inr ⟨rfl, ih ys zs hab hbc⟩

theorem strLe_total (s t : String) : strLe s t = true ∨ strLe t s = true := by
  by_cases h : charListLt t.data s.data
  · right
    have : charListLt s.data t.data = false := by
      by_contra hcontra
      exact charListLt_asymm t.data s.data h (by revert hcontra; cases charListLt s.data t.data <;> simp)
    simp [strLe, strLt, this]
  · left
    simp only [strLe, strLt]
    simp only [Bool.eq_false_iff, ne_eq] at h
    cases hc : charListLt t.data s.data
    · rfl
    · exact absurd hc h

theorem strLe_trans (s t u : String) :
    strLe s t = true → strLe t u = true → strLe s u = true := by
  simp only [strLe, strLt, Bool.not_eq_true', Bool.eq_false_iff, ne_eq]
  intro hts hut
  intro hus
  rcases charListLt_trichotomy s.data t.data with h | h | h
  · rcases charListLt_trichotomy t.data u.data with h2 | h2 | h2
    · exact absurd (charListLt_asymm u.data s.data hus (charListLt_trans s.data t.data u.data h h2)) not_false
    · rw [h2] at h
      exact absurd (charListLt_asymm s.data u.data h hus) not_false
    · exact absurd h2 (by simpa using hut)
  · rw [h] at hus
    exact absurd hus (by simpa using hut)
  · exact absurd h (by simpa using hts)

theorem strLt_trans (s t u : String) :
    strLt s t = true → strLt t u = true → strLt s u = true :=
  fun h1 h2 => charListLt_trans s.data t.data u.data h1 h2

theorem strLt_asymm (s t : String) : strLt s t = true → strLt t s = true → False :=
  fun h1 h2 => charListLt_asymm s.data t.data h1 h2

theorem strLt_irrefl (s : String) : strLt s s = true → False :=
  fun h => charListLt_asymm s.data s.data h h

theorem mem_mapSet (m : List (String × Meta)) (k : String) (v : Meta) (p : String × Meta)
    (hp : p ∈ mapSet m k v) : p ∈ m ∨ p.2 = v := by
  by_cases h : m.any (fun q => q.1 = k)
  · simp only [mapSet, h, if_true] at hp
    rcases List.mem_map.mp hp with ⟨q, hq, hqe⟩
    by_cases hk : q.1 = k
    · right
      rw [if_pos hk] at hqe
      rw [← hqe]
    · left
      rw [if_neg hk] at hqe
      rw [← hqe]
      exact hq
  · simp only [mapSet, h, Bool.false_eq_true, if_false] at hp
    rcases List.mem_append.mp hp with hq | hq
    · exact Or.inl hq
    · right
      rw [List.mem_singleton.mp hq]

theorem clusterFor_inv (dist : Dist) (maxMiles : ℚ) (maxDiffDays : Int) (a : Meta) (i : Nat)
    (l : List (Nat × Meta)) (acc : List (String × Meta))
    (hacc : ∀ p ∈ acc, p.2 = a ∨ admits dist maxMiles maxDiffDays a p.2 = true) :
    ∀ p ∈ l.foldl
      (fun acc jb =>
        if jb.1 = i then acc
        else if admits dist maxMiles maxDiffDays a jb.2 then mapSet acc jb.2.key jb.2
        else acc) acc,
      p.2 = a ∨ admits dist maxMiles maxDiffDays a p.2 = true := by
  induction l generalizing acc with
  | nil => exact hacc
  | cons jb l ih =>
    simp only [List.foldl_cons]
    by_cases hji : jb.1 = i
    · rw [if_pos hji]
      exact ih acc hacc
    · rw [if_neg hji]
      by_cases hadm : admits dist maxMiles maxDiffDays a jb.2 = true
      · rw [if_pos hadm]
        refine ih (mapSet acc jb.2.key jb.2) ?_
        intro p hp
        rcases mem_mapSet acc jb.2.key jb.2 p hp with hin | hval
        · exact hacc p hin
        · right
          rw [hval]
          exact hadm
      · rw [if_neg hadm]
        exact ih acc hacc

theorem clusterFor_spec (dist : Dist) (maxMiles : ℚ) (maxDiffDays : Int)
    (metas : List Meta) (i : Nat) (a : Meta) :
    ∀ p ∈ clusterFor dist maxMiles maxDiffDays metas i a,
      p.2 = a ∨ admits dist maxMiles maxDiffDays a p.2 = true := by
  refine clusterFor_inv dist maxMiles maxDiffDays a i metas.enum [(a.key, a)] ?_
  intro p hp
  left
  rw [List.mem_singleton.mp hp]

theorem mem_mapSetIfAbsent (m : List (String × List Event)) (k : String) (v : List Event)
    (p : String × List Event) (hp : p ∈ mapSetIfAbsent m k v) : p ∈ m ∨ p = (k, v) := by
  by_cases h : m.any (fun q => q.1 = k)
  · simp only [mapSetIfAbsent, h, if_true] at hp
    exact Or.inl hp
  · simp only [mapSetIfAbsent, h, Bool.false_eq_true, if_false] at hp
    rcases List.mem_append.mp hp with hq | hq
    · exact Or.inl hq
    · exact Or.inr (List.mem_singleton.mp hq)

theorem buildStep_inv (dist : Dist) (maxMiles : ℚ) (effectiveDays : Int) (metas : List Meta)
    (l : List (Nat × Meta)) (acc : List (String × List Event))
    (hacc : ∀ p ∈ acc, EmittedOcc dist maxMiles effectiveDays metas p.2) :
    ∀ p ∈ l.foldl (buildStep dist maxMiles effectiveDays metas) acc,
      EmittedOcc dist maxMiles effectiveDays metas p.2 := by
  induction l generalizing acc with
  | nil => exact hacc
  | cons ia l ih =>
    simp only [List.foldl_cons]
    refine ih _ ?_
    intro p hp
    by_cases h1 : anchorOK ia.2 = true
    · simp only [buildStep, h1, if_true] at hp
      by_cases h2 : 2 ≤ occurrencePickCoverageCount
          (clusterEvents (clusterFor dist maxMiles (maxDiffOf effectiveDays) metas ia.1 ia.2))
      · rw [if_pos h2] at hp
        by_cases h3 : (occurrenceDistinctDateCount
            (clusterEvents (clusterFor dist maxMiles (maxDiffOf effectiveDays) metas ia.1 ia.2)) : Int) ≤
            safeSpanOf effectiveDays
        · rw [if_pos h3] at hp
          by_cases h4 : occurrenceSpanDays
              (clusterEvents (clusterFor dist maxMiles (maxDiffOf effectiveDays) metas ia.1 ia.2)) ≤
              maxDiffOf effectiveDays
          · rw [if_pos h4] at hp
            rcases mem_mapSetIfAbsent acc _ _ p hp with hin | hnew
            · exact hacc p hin
            · rw [hnew]
              exact ⟨ia.1, ia.2, h1, rfl, h2, h3, h4⟩
          · rw [if_neg h4] at hp
            exact hacc p hp
        · rw [if_neg h3] at hp
          exact hacc p hp
      · rw [if_neg h2] at hp
        exact hacc p hp
    · simp only [buildStep, Bool.not_eq_true] at h1
      simp only [buildStep, h1, Bool.false_eq_true, if_false] at hp
      exact hacc p hp

theorem build_mem_spec (dist : Dist) (allEvents : List Event) (maxMiles : ℚ)
    (effectiveDays : Int) :
    ∀ occ ∈ buildOccurrencesByRadiusAndDays dist allEvents maxMiles effectiveDays,
      EmittedOcc dist maxMiles effectiveDays (metasOf allEvents) occ := by
  intro occ hocc
  simp only [buildOccurrencesByRadiusAndDays] at hocc
  have h1 := (mem_sortBy occLe occ _).mp hocc
  rcases List.mem_map.mp h1 with ⟨p, hp, hpe⟩
  rw [← hpe]
  exact buildStep_inv dist maxMiles effectiveDays (metasOf allEvents)
    (metasOf allEvents).enum [] (by intro q hq; cases hq) p hp

theorem admits_unpack (dist : Dist) (maxMiles : ℚ) (maxDiffDays : Int) (a b : Meta)
    (h : admits dist maxMiles maxDiffDays a b = true) :
    (∃ s : Int, diffDaysSigned a.date b.date = some s ∧ 0 ≤ s ∧ s ≤ maxDiffDays) ∧
    (∃ la lo lb lob : ℚ, a.lat = some la ∧ a.lon = some lo ∧ b.lat = some lb ∧
      b.lon = some lob ∧ dist la lo lb lob ≤ maxMiles) := by
  simp only [admits, Bool.and_eq_true] at h
  rcases h with ⟨⟨_, hday⟩, hdist⟩
  constructor
  · cases hd : diffDaysSigned a.date b.date with
    | none => rw [hd] at hday; cases hday
    | some s =>
      rw [hd] at hday
      simp only [Bool.and_eq_true, decide_eq_true_eq] at hday
      exact ⟨s, rfl, hday.1, hday.2⟩
  · cases hla : a.lat with
    | none => rw [hla] at hdist; cases hdist
    | some la =>
      cases hlo : a.lon with
      | none => rw [hla, hlo] at hdist; cases hdist
      | some lo =>
        cases hlb : b.lat with
        | none => rw [hla, hlo, hlb] at hdist; cases hdist
        | some lb =>
          cases hlob : b.lon with
          | none => rw [hla, hlo, hlb, hlob] at hdist; cases hdist
          | some lob =>
            rw [hla, hlo, hlb, hlob] at hdist
            simp only [decide_eq_true_eq] at hdist
            exact ⟨la, lo, lb, lob, rfl, rfl, rfl, rfl, hdist⟩

/-- C1: every member of an occurrence produced in overlap mode is, if
it is not the anchor itself, an event whose signed day difference from
the anchor lies in 0..maxDiffDays and whose distance from the anchor
is at most the radius; and the bound is anchor-relative only, never
pairwise: the concrete run below emits an occurrence whose two
non-anchor members are 100 miles apart under a 60-mile radius. -/
theorem overlap_members_within_anchor_bounds :
    (∀ (dist : Dist) (allEvents : List Event) (maxMiles : ℚ) (effectiveDays : Int),
      ∀ occ ∈ buildOccurrencesByRadiusAndDays dist allEvents maxMiles effectiveDays,
        ∃ a : Meta, anchorOK a = true ∧
          ∀ e ∈ occ, e = a.e ∨ ∃ b : Meta, b.e = e ∧
            (∃ s : Int, diffDaysSigned a.date b.date = some s ∧ 0 ≤ s ∧
              s ≤ maxDiffOf effectiveDays) ∧
            (∃ la lo lb lob : ℚ, a.lat = some la ∧ a.lon = some lo ∧ b.lat = some lb ∧
              b.lon = some lob ∧ dist la lo lb lob ≤ maxMiles)) ∧
    (buildOccurrencesByRadiusAndDays dist0 [eA, eB1, eB2] 60 1 =
        [[eA, eB1, eB2], [eB1, eA], [eB2, eA]] ∧
      dist0 50 0 (-50) 0 > 60) := by
  constructor
  · intro dist allEvents maxMiles effectiveDays occ hocc
    rcases build_mem_spec dist allEvents maxMiles effectiveDays occ hocc with
      ⟨i, a, hA, hocc_eq, _, _, _⟩
    refine ⟨a, hA, ?_⟩
    intro e he
    rw [hocc_eq] at he
    rcases List.mem_map.mp he with ⟨p, hp, hpe⟩
    rcases clusterFor_spec dist maxMiles (maxDiffOf effectiveDays) (metasOf allEvents) i a p hp with
      heq | hadm
    · left
      rw [← hpe, heq]
    · right
      have h2 := admits_unpack dist maxMiles (maxDiffOf effectiveDays) a p.2 hadm
      exact ⟨p.2, hpe, h2.1, h2.2⟩
  · exact ⟨by decide, by decide⟩

/-- Witness for C1: the anchor-relative bounds instantiated at the
concrete overlap run. -/
theorem overlap_members_within_anchor_bounds_witness :
    [eA, eB1, eB2] ∈ buildOccurrencesByRadiusAndDays dist0 [eA, eB1, eB2] 60 1 ∧
    ∃ a : Meta, anchorOK a = true ∧
      ∀ e ∈ [eA, eB1, eB2], e = a.e ∨ ∃ b : Meta, b.e = e ∧
        (∃ s : Int, diffDaysSigned a.date b.date = some s ∧ 0 ≤ s ∧ s ≤ maxDiffOf 1) ∧
        (∃ la lo lb lob : ℚ, a.lat = some la ∧ a.lon = some lo ∧ b.lat = some lb ∧
          b.lon = some lob ∧ dist0 la lo lb lob ≤ 60) :=
  ⟨by decide,
    overlap_members_within_anchor_bounds.1 dist0 [eA, eB1, eB2] 60 1 [eA, eB1, eB2] (by decide)⟩

/-- C2: every occurrence emitted by the overlap builder covers at
least two distinct pick keys; a candidate cluster with fewer is never
emitted. -/
theorem overlap_coverage_ge_two :
    ∀ (dist : Dist) (allEvents : List Event) (maxMiles : ℚ) (effectiveDays : Int),
      ∀ occ ∈ buildOccurrencesByRadiusAndDays dist allEvents maxMiles effectiveDays,
        2 ≤ occurrencePickCoverageCount occ := by
  intro dist allEvents maxMiles effectiveDays occ hocc
  rcases build_mem_spec dist allEvents maxMiles effectiveDays occ hocc with
    ⟨_, _, _, _, hcov, _, _⟩
  exact hcov

/-- Witness for C2 at the concrete overlap run. -/
theorem overlap_coverage_ge_two_witness :
    [eB1, eA] ∈ buildOccurrencesByRadiusAndDays dist0 [eA, eB1, eB2] 60 1 ∧
    2 ≤ occurrencePickCoverageCount [eB1, eA] :=
  ⟨by decide, overlap_coverage_ge_two dist0 [eA, eB1, eB2] 60 1 [eB1, eA] (by decide)⟩

theorem occLe_trans (A B C : List Event) :
    occLe A B = true → occLe B C = true → occLe A C = true := by
  simp only [occLe, Bool.or_eq_true, Bool.and_eq_true, decide_eq_true_eq]
  rintro (h1 | ⟨h1e, h1l | ⟨h1le, h1s⟩⟩) (h2 | ⟨h2e, h2l | ⟨h2le, h2s⟩⟩)
  · exact Or.inl (by omega)
  · exact Or.inl (by omega)
  · exact Or.inl (by omega)
  · exact Or.inl (by omega)
  · exact Or.inr ⟨by omega, Or.inl (by omega)⟩
  · exact Or.inr ⟨by omega, Or.inl (by omega)⟩
  · exact Or.inl (by omega)
  · exact Or.inr ⟨by omega, Or.inl (by omega)⟩
  · exact Or.inr ⟨by omega, Or.inr ⟨by omega, strLe_trans _ _ _ h1s h2s⟩⟩

theorem occLe_total (A B : List Event) : occLe A B = true ∨ occLe B A = true := by
  simp only [occLe, Bool.or_eq_true, Bool.and_eq_true, decide_eq_true_eq]
  rcases Nat.lt_trichotomy (occurrencePickCoverageCount A) (occurrencePickCoverageCount B) with
    hc | hc | hc
  · exact Or.inr (Or.inl hc)
  · rcases Nat.lt_trichotomy A.length B.length with hl | hl | hl
    · exact Or.inr (Or.inr ⟨hc.symm, Or.inl hl⟩)
    · rcases strLe_total (occurrenceEarliestDate A) (occurrenceEarliestDate B) with hs | hs
      · exact Or.inl (Or.inr ⟨hc, Or.inr ⟨hl, hs⟩⟩)
      · exact Or.inr (Or.inr ⟨hc.symm, Or.inr ⟨hl.symm, hs⟩⟩)
    · exact Or.inl (Or.inr ⟨hc, Or.inl hl⟩)
  · exact Or.inl (Or.inl hc)

/-- C7: the final occurrence list is sorted by the ranking comparator
(coverage descending, then member count descending, then earliest
member date string ascending); in particular an occurrence of strictly
greater coverage always comes first. -/
theorem occurrences_ranking_sorted (dist : Dist) (allEvents : List Event) (maxMiles : ℚ)
    (effectiveDays : Int) :
    (buildOccurrencesByRadiusAndDays dist allEvents maxMiles effectiveDays).Pairwise
      (fun A B => occLe A B = true) ∧
    ∀ (i j : Nat)
      (hi : i < (buildOccurrencesByRadiusAndDays dist allEvents maxMiles effectiveDays).length)
      (hj : j < (buildOccurrencesByRadiusAndDays dist allEvents maxMiles effectiveDays).length),
      occurrencePickCoverageCount
          ((buildOccurrencesByRadiusAndDays dist allEvents maxMiles effectiveDays).get ⟨j, hj⟩) <
        occurrencePickCoverageCount
          ((buildOccurrencesByRadiusAndDays dist allEvents maxMiles effectiveDays).get ⟨i, hi⟩) →
      i < j := by
  have hpair : (buildOccurrencesByRadiusAndDays dist allEvents maxMiles effectiveDays).Pairwise
      (fun A B => occLe A B = true) := by
    simp only [buildOccurrencesByRadiusAndDays]
    exact pairwise_sortBy occLe occLe_trans occLe_total _
  refine ⟨hpair, ?_⟩
  intro i j hi hj hc
  have hget := List.pairwise_iff_get.mp hpair
  rcases Nat.lt_trichotomy i j with h | h | h
  · exact h
  · subst h
    exact absurd hc (by omega)
  · have hle := hget ⟨j, hj⟩ ⟨i, hi⟩ h
    simp only [occLe, Bool.or_eq_true, Bool.and_eq_true, decide_eq_true_eq] at hle
    rcases hle with hlt | ⟨heq, _⟩
    · omega
    · omega

theorem runs_inv (l : List Event) (occs : List (List Event)) (cur : List Event) (curKey : String)
    (h1 : ∀ r ∈ occs, r ≠ [] ∧ ∀ e1 ∈ r, ∀ e2 ∈ r,
      locationKeyForEvent e1 = locationKeyForEvent e2)
    (h2 : ∀ e ∈ cur, locationKeyForEvent e = curKey) :
    (finishRuns (l.foldl runsStep (occs, cur, curKey))).flatten = occs.flatten ++ cur ++ l ∧
    ∀ r ∈ finishRuns (l.foldl runsStep (occs, cur, curKey)), r ≠ [] ∧
      ∀ e1 ∈ r, ∀ e2 ∈ r, locationKeyForEvent e1 = locationKeyForEvent e2 := by
  induction l generalizing occs cur curKey with
  | nil =>
    by_cases hc : cur = []
    · subst hc
      constructor
      · simp [finishRuns]
      · intro r hr
        simp only [List.foldl_nil, finishRuns, if_pos rfl] at hr
        exact h1 r hr
    · constructor
      · simp [finishRuns, hc]
      · intro r hr
        simp only [List.foldl_nil, finishRuns, if_neg hc] at hr
        rcases List.mem_append.mp hr with hin | hnew
        · exact h1 r hin
        · rw [List.mem_singleton.mp hnew]
          refine ⟨hc, ?_⟩

          intro e1 he1 e2 he2
          rw [h2 e1 he1, h2 e2 he2]
  | cons e l ih =>
    simp only [List.foldl_cons]
    by_cases hc : cur = []
    · subst hc
      have hstep : runsStep (occs, [], curKey) e = (occs, [e], locationKeyForEvent e) := rfl
      rw [hstep]
      have := ih occs [e] (locationKeyForEvent e) h1
        (by intro x hx; rw [List.mem_singleton.mp hx])
      refine ⟨?_, this.2⟩
      rw [this.1]
      simp
    · have hstep : runsStep (occs, cur, curKey) e =
          if locationKeyForEvent e = curKey then (occs, cur ++ [e], curKey)
          else (occs ++ [cur], [e], locationKeyForEvent e) := by
        simp only [runsStep, if_neg hc]
      rw [hstep]
      by_cases hk : locationKeyForEvent e = curKey
      · rw [if_pos hk]
        have := ih occs (cur ++ [e]) curKey h1
          (by
            intro x hx
            rcases List.mem_append.mp hx with hin | hnew
            · exact h2 x hin
            · rw [List.mem_singleton.mp hnew]
              exact hk)
        refine ⟨?_, this.2⟩
        rw [this.1]
        simp
      · rw [if_neg hk]
        have := ih (occs ++ [cur]) [e] (locationKeyForEvent e)
          (by
            intro r hr
            rcases List.mem_append.mp hr with hin | hnew
            · exact h1 r hin
            · rw [List.mem_singleton.mp hnew]
              refine ⟨hc, ?_⟩
              intro e1 he1 e2 he2
              rw [h2 e1 he1, h2 e2 he2])
          (by intro x hx; rw [List.mem_singleton.mp hx])
        refine ⟨?_, this.2⟩
        rw [this.1]
        simp


/-- The concatenation of the single-mode runs is exactly the sorted,
shape-valid-date sub-list. -/
theorem runs_flatten_eq (events : List Event) :
    (buildOccurrencesSingleByLocationRuns events).flatten =
      sortBy sortLe (events.filter isYMDe) := by
  have h := runs_inv (sortBy sortLe (events.filter isYMDe)) [] [] ""
    (by intro r hr; cases hr) (by intro x hx; cases hx)
  simpa [buildOccurrencesSingleByLocationRuns] using h.1

/-- Every single-mode run is nonempty and location-homogeneous. -/
theorem runs_shape (events : List Event) :
    ∀ r ∈ buildOccurrencesSingleByLocationRuns events, r ≠ [] ∧
      ∀ e1 ∈ r, ∀ e2 ∈ r, locationKeyForEvent e1 = locationKeyForEvent e2 := by
  have h := runs_inv (sortBy sortLe (events.filter isYMDe)) [] [] ""
    (by intro r hr; cases hr) (by intro x hx; cases hx)
  simpa [buildOccurrencesSingleByLocationRuns] using h.2

/-- C10: the single-pick run builder partitions its input: the
concatenation of the returned runs is exactly the shape-valid-date
sub-list of the input in the chronological sort-key order (hence a
permutation of that sub-list, so every such event lands in exactly one
run and no date-less event appears), and every run is nonempty and
location-homogeneous. -/
theorem single_runs_partition (events : List Event) :
    (buildOccurrencesSingleByLocationRuns events).flatten =
      sortBy sortLe (events.filter isYMDe) ∧
    List.Perm (buildOccurrencesSingleByLocationRuns events).flatten (events.filter isYMDe) ∧
    ∀ r ∈ buildOccurrencesSingleByLocationRuns events, r ≠ [] ∧
      ∀ e1 ∈ r, ∀ e2 ∈ r, locationKeyForEvent e1 = locationKeyForEvent e2 := by
  refine ⟨runs_flatten_eq events, ?_, runs_shape events⟩
  rw [runs_flatten_eq events]
  exact sortBy_perm sortLe _

/-- Witness for C10 on a concrete two-run input. -/
theorem single_runs_partition_witness :
    [t1, t2] ∈ buildOccurrencesSingleByLocationRuns [u1, t2, t1] ∧
    [t1, t2] ≠ [] ∧
    ∀ e1 ∈ [t1, t2], ∀ e2 ∈ [t1, t2], locationKeyForEvent e1 = locationKeyForEvent e2 :=
  ⟨by decide,
    ((single_runs_partition [u1, t2, t1]).2.2 [t1, t2] (by decide)).1,
    ((single_runs_partition [u1, t2, t1]).2.2 [t1, t2] (by decide)).2⟩

/-- C8 (amended): the single-pick chronological order is by local date
ascending and then by local time-of-day ascending with a missing time
keyed as 00:00:00, so a missing-time event sorts no later than any
same-date event with a time, not last. -/
theorem single_sort_key_order (events : List Event) :
    ((buildOccurrencesSingleByLocationRuns events).flatten).Pairwise
      (fun a b => sortLe a b = true) := by
  rw [runs_flatten_eq]
  exact pairwise_sortBy sortLe (fun x y z hx hy => strLe_trans _ _ _ hx hy)
    (fun x y => strLe_total _ _) _

/-- Counterexample for C8 as stated: on one date the event without a
local time is placed before the event with an evening time, because
its sort key defaults to midnight; the claim predicted it sorts
after. -/
theorem single_sort_missing_time_counterexample :
    buildOccurrencesSingleByLocationRuns [t2, t1] = [[t1, t2]] ∧
    t1.localTime = none ∧ t2.localTime = some ⟨19, 0, 0⟩ ∧
    t1.localDate = t2.localDate ∧
    sortKeyForEvent t1 = "2024-05-01T00:00:00" := by
  refine ⟨by decide, rfl, rfl, rfl, by decide⟩

/-- C3 (the code, against the claim): for a request of three inclusive
trip days the anchor-relative day window is one day, not
max(0, maxDays - 1) = 2, because the handler subtracts one before the
builder subtracts again.  At the failing input two ticket-linked
events of different picks, two days apart at one venue, yield zero
occurrences, while the builder run on the un-clamped value admits them
both. -/
theorem overlap_day_window_double_decrement :
    effectiveDaysOf 3 = 2 ∧
    maxDiffOf (effectiveDaysOf 3) = 1 ∧
    max 0 (3 - 1 : Int) = 2 ∧
    q3.days = 3 ∧
    (routeGET dist0 resolve0 fetch3 q3).count = 0 ∧
    (routeGET dist0 resolve0 fetch3 q3).occurrences = [] ∧
    diffDaysSigned g1.localDate g2.localDate = some 2 ∧
    buildOccurrencesByRadiusAndDays dist0 [g1p, g2p] 100 3 = [[g1p, g2p]] := by
  refine ⟨rfl, rfl, rfl, rfl, by decide, by decide, by decide, by decide⟩

/-- Counterexample for C5 as stated: in overlap mode the dedupe key is
slot-suffixed, so the same provider id fetched through both picks is
kept twice among the members of the emitted occurrence, not once. -/
theorem overlap_slot_dedupe_counterexample :
    sh1.eid = "S1" ∧ sh2.eid = "S1" ∧
    buildOccurrencesByRadiusAndDays dist0 [sh1, sh2] 60 1 = [[sh1, sh2]] ∧
    ((buildOccurrencesByRadiusAndDays dist0 [sh1, sh2] 60 1).headD []).countP
      (fun e => e.eid = "S1") = 2 := by
  refine ⟨rfl, rfl, by decide, by decide⟩

/-- C5 (amended): overlap-mode identity is slot-sensitive: the same
provider id fetched by pick one and pick two produces the two distinct
keys id:S1|slot:p1 and id:S1|slot:p2 and hence two members, while
coverage still registers two distinct pick keys through the origin
picks. -/
theorem overlap_slot_sensitive_members_coverage :
    dedupeKeyForEvent sh1 = "id:S1|slot:p1" ∧
    dedupeKeyForEvent sh2 = "id:S1|slot:p2" ∧
    dedupeKeyForEvent sh1 ≠ dedupeKeyForEvent sh2 ∧
    buildOccurrencesByRadiusAndDays dist0 [sh1, sh2] 60 1 = [[sh1, sh2]] ∧
    pickKey sh1.pick ≠ pickKey sh2.pick ∧
    occurrencePickCoverageCount [sh1, sh2] = 2 := by
  refine ⟨by decide, by decide, by decide, by decide, by decide, by decide⟩

theorem singleBranch_modes (fetchFor : PickBase → List Event)
    (resolveTeam : String → String) (sB eB : Option Ymd) (anchorPick : PickBase) :
    ∀ o ∈ (singleBranch fetchFor resolveTeam sB eB anchorPick).occurrences,
      o.mode = some "SINGLE_PICK_LOCATION_RUNS" := by
  intro o ho
  simp only [singleBranch] at ho
  rcases List.mem_map.mp ho with ⟨occ, _, rfl⟩
  rfl

/-- C4 (amended): when the two picks are entity picks resolving to the
same nonempty attraction id, the handler runs the single-favorite
branch: the response does not depend on the distance function, the
requested days or the radius, and every returned occurrence carries
mode SINGLE_PICK_LOCATION_RUNS (location runs of the shared schedule),
not a single ENTITY_ONLY occurrence. -/
theorem same_entity_single_mode_insensitive
    (dist dist2 : Dist) (resolveTeam : String → String) (fetchFor : PickBase → List Event)
    (q : ReqParams) (d1 d2 : Int) (r1 r2 : ℚ) (p1b p2b : PickBase)
    (h1 : parsePickOrRaw (jsOr (trimStr q.p1) (trimStr q.p2)) = some p1b)
    (h2 : parsePickOrRaw (jsOr (trimStr q.p2) (trimStr q.p1)) = some p2b)
    (hsame : sameEntityIds (ensureAttractionId resolveTeam p1b)
      (ensureAttractionId resolveTeam p2b) = true) :
    routeGET dist resolveTeam fetchFor { q with days := d1, radiusMiles := r1 } =
      routeGET dist2 resolveTeam fetchFor { q with days := d2, radiusMiles := r2 } ∧
    ∀ o ∈ (routeGET dist resolveTeam fetchFor q).occurrences,
      o.mode = some "SINGLE_PICK_LOCATION_RUNS" := by
  have hq : ∀ (d : Int) (r : ℚ) (dd : Dist),
      routeGET dd resolveTeam fetchFor { q with days := d, radiusMiles := r } =
        singleBranch fetchFor resolveTeam q.startDate q.endDate
          (if trimStr q.p1 ≠ "" then ensureAttractionId resolveTeam p1b
           else if trimStr q.p2 ≠ "" then ensureAttractionId resolveTeam p2b
           else ensureAttractionId resolveTeam p1b) := by
    intro d r dd
    simp only [routeGET, h1, h2, hsame, Bool.or_true, if_true]
  have hq0 : routeGET dist resolveTeam fetchFor q =
      singleBranch fetchFor resolveTeam q.startDate q.endDate
        (if trimStr q.p1 ≠ "" then ensureAttractionId resolveTeam p1b
         else if trimStr q.p2 ≠ "" then ensureAttractionId resolveTeam p2b
         else ensureAttractionId resolveTeam p1b) := by
    simp only [routeGET, h1, h2, hsame, Bool.or_true, if_true]
  constructor
  · rw [hq d1 r1 dist, hq d2 r2 dist2]
  · rw [hq0]
    exact singleBranch_modes fetchFor resolveTeam q.startDate q.endDate _

/-- Witness for C4 (amended), at the concrete same-team request:
days 3 at radius 100 and days 99 at radius 1 give identical
responses. -/
theorem same_entity_single_mode_insensitive_witness :
    routeGET dist0 resolve0 fetch4 { q4 with days := 3, radiusMiles := 100 } =
      routeGET dist0 resolve0 fetch4 { q4 with days := 99, radiusMiles := 1 } :=
  (same_entity_single_mode_insensitive dist0 dist0 resolve0 fetch4 q4 3 99 100 1
    (.team "NHL" "T1" "Oilers") (.team "NHL" "T1" "Oil")
    (by decide) (by decide) (by decide)).1

/-- Counterexample for C4 as stated: both picks resolve to team id T1,
yet the result has two occurrences, both tagged
SINGLE_PICK_LOCATION_RUNS, not exactly one ENTITY_ONLY occurrence. -/
theorem entity_only_mode_counterexample :
    sameEntityIds (ensureAttractionId resolve0 (.team "NHL" "T1" "Oilers"))
        (ensureAttractionId resolve0 (.team "NHL" "T1" "Oil")) = true ∧
    (routeGET dist0 resolve0 fetch4 q4).count = 2 ∧
    (routeGET dist0 resolve0 fetch4 q4).occurrences.map UiOcc.mode =
      [some "SINGLE_PICK_LOCATION_RUNS", some "SINGLE_PICK_LOCATION_RUNS"] := by
  refine ⟨by decide, by decide, by decide⟩

theorem normalBranch_fallback (dist : Dist) (fetchFor : PickBase → List Event)
    (resolveTeam : String → String) (sB eB : Option Ymd) (userDays : Int) (radiusMiles : ℚ)
    (p1r p2r : PickBase) (p3r : Option PickBase) :
    ((normalBranch dist fetchFor resolveTeam sB eB userDays radiusMiles p1r p2r p3r).fallback.isSome
      = true) ↔
    buildOccurrencesByRadiusAndDays dist (overlapAllEvents fetchFor resolveTeam sB eB p1r p2r p3r)
      radiusMiles (effectiveDaysOf userDays) = [] := by
  simp only [normalBranch, List.length_map]
  by_cases hb : buildOccurrencesByRadiusAndDays dist
      (overlapAllEvents fetchFor resolveTeam sB eB p1r p2r p3r)
      radiusMiles (effectiveDaysOf userDays) = []
  · simp [hb]
  · have hlen : (buildOccurrencesByRadiusAndDays dist
        (overlapAllEvents fetchFor resolveTeam sB eB p1r p2r p3r)
        radiusMiles (effectiveDaysOf userDays)).length ≠ 0 := by
      intro h
      exact hb (List.length_eq_zero.mp h)
    simp [hb, hlen]

/-- C9 (amended): the fallback is present exactly when both effective
picks parse, the single-favorite escalation does not fire (the request
runs overlap mode), and the overlap builder returns zero occurrences;
the picks being entity picks is not required. -/
theorem fallback_iff_overlap_zero_occurrences
    (dist : Dist) (resolveTeam : String → String) (fetchFor : PickBase → List Event)
    (q : ReqParams) :
    (routeGET dist resolveTeam fetchFor q).fallback.isSome = true ↔
      ∃ p1b p2b : PickBase,
        parsePickOrRaw (jsOr (trimStr q.p1) (trimStr q.p2)) = some p1b ∧
        parsePickOrRaw (jsOr (trimStr q.p2) (trimStr q.p1)) = some p2b ∧
        (singleModeRaw (trimStr q.p1) (trimStr q.p2) ||
          sameEntityIds (ensureAttractionId resolveTeam p1b)
            (ensureAttractionId resolveTeam p2b)) = false ∧
        buildOccurrencesByRadiusAndDays dist
          (overlapAllEvents fetchFor resolveTeam q.startDate q.endDate
            (ensureAttractionId resolveTeam p1b) (ensureAttractionId resolveTeam p2b)
            ((if trimStr q.p3 ≠ "" then parsePickOrRaw (trimStr q.p3) else none).map
              (ensureAttractionId resolveTeam)))
          q.radiusMiles (effectiveDaysOf q.days) = [] := by
  cases hp1 : parsePickOrRaw (jsOr (trimStr q.p1) (trimStr q.p2)) with
  | none =>
    simp only [routeGET, hp1]
    constructor
    · intro h
      simp at h
    · rintro ⟨p1b, p2b, h1, _, _, _⟩
      cases h1
  | some p1b =>
    cases hp2 : parsePickOrRaw (jsOr (trimStr q.p2) (trimStr q.p1)) with
    | none =>
      simp only [routeGET, hp1, hp2]
      constructor
      · intro h
        simp at h
      · rintro ⟨p1b', p2b', _, h2, _, _⟩
        cases h2
    | some p2b =>
      simp only [routeGET, hp1, hp2]
      by_cases hsm : (singleModeRaw (trimStr q.p1) (trimStr q.p2) ||
          sameEntityIds (ensureAttractionId resolveTeam p1b)
            (ensureAttractionId resolveTeam p2b)) = true
      · rw [if_pos hsm]
        constructor
        · intro h
          simp [singleBranch] at h
        · rintro ⟨p1b', p2b', h1, h2, hsm', _⟩
          obtain rfl := Option.some.inj h1
          obtain rfl := Option.some.inj h2
          rw [hsm] at hsm'
          cases hsm'
      · rw [if_neg hsm]
        have hsm' : (singleModeRaw (trimStr q.p1) (trimStr q.p2) ||
            sameEntityIds (ensureAttractionId resolveTeam p1b)
              (ensureAttractionId resolveTeam p2b)) = false := by
          revert hsm
          cases singleModeRaw (trimStr q.p1) (trimStr q.p2) ||
            sameEntityIds (ensureAttractionId resolveTeam p1b)
              (ensureAttractionId resolveTeam p2b) <;> simp
        rw [normalBranch_fallback]
        constructor
        · intro h
          exact ⟨p1b, p2b, rfl, rfl, hsm', h⟩
        · rintro ⟨p1b', p2b', h1, h2, _, hbuild⟩
          obtain rfl := Option.some.inj h1
          obtain rfl := Option.some.inj h2
          exact hbuild

theorem strData_eq (s t : String) (h : s.data = t.data) : s = t := by
  cases s
  cases t
  exact congrArg String.mk h

theorem candLe_refl (x : Cand) : candLe x x := Or.inr ⟨rfl, rfl, rfl⟩

theorem candLt_trans (x y z : Cand) (h1 : candLt x y) (h2 : candLt y z) : candLt x z := by
  rcases h1 with hm1 | ⟨em1, hd1⟩
  · rcases h2 with hm2 | ⟨em2, hd2⟩
    · exact Or.inl (lt_trans hm1 hm2)
    · exact Or.inl (by rw [← em2]; exact hm1)
  · rcases h2 with hm2 | ⟨em2, hd2⟩
    · exact Or.inl (by rw [em1]; exact hm2)
    · refine Or.inr ⟨em1.trans em2, ?_⟩
      rcases hd1 with hdl1 | ⟨ed1, hs1⟩
      · rcases hd2 with hdl2 | ⟨ed2, hs2⟩
        · exact Or.inl (lt_trans hdl1 hdl2)
        · exact Or.inl (by rw [← ed2]; exact hdl1)
      · rcases hd2 with hdl2 | ⟨ed2, hs2⟩
        · exact Or.inl (by rw [ed1]; exact hdl2)
        · exact Or.inr ⟨ed1.trans ed2, strLt_trans _ _ _ hs1 hs2⟩

theorem candLe_trans (x y z : Cand) (h1 : candLe x y) (h2 : candLe y z) : candLe x z := by
  rcases h1 with h1 | ⟨m1, d1, s1⟩
  · rcases h2 with h2 | ⟨m2, d2, s2⟩
    · exact Or.inl (candLt_trans x y z h1 h2)
    · left
      unfold candLt at h1 ⊢
      rw [← m2, ← d2, ← s2]
      exact h1
  · rcases h2 with h2 | ⟨m2, d2, s2⟩
    · left
      unfold candLt at h2 ⊢
      rw [m1, d1, s1]
      exact h2
    · exact Or.inr ⟨m1.trans m2, d1.trans d2, s1.trans s2⟩

theorem cand_trichotomy (x y : Cand) :
    candLt x y ∨
      (x.out.miles = y.out.miles ∧ x.out.daysApart = y.out.daysApart ∧
        x.earliest = y.earliest) ∨
      candLt y x := by
  rcases lt_trichotomy x.out.miles y.out.miles with h | h | h
  · exact Or.inl (Or.inl h)
  · rcases lt_trichotomy x.out.daysApart y.out.daysApart with h2 | h2 | h2
    · exact Or.inl (Or.inr ⟨h, Or.inl h2⟩)
    · rcases charListLt_trichotomy x.earliest.data y.earliest.data with h3 | h3 | h3
      · exact Or.inl (Or.inr ⟨h, Or.inr ⟨h2, h3⟩⟩)
      · exact Or.inr (Or.inl ⟨h, h2, strData_eq _ _ h3⟩)
      · exact Or.inr (Or.inr (Or.inr ⟨h.symm, Or.inr ⟨h2.symm, h3⟩⟩))
    · exact Or.inr (Or.inr (Or.inr ⟨h.symm, Or.inl h2⟩))
  · exact Or.inr (Or.inr (Or.inl h))

theorem candLe_of_not_lt (x y : Cand) (h : ¬ candLt x y) : candLe y x := by
  rcases cand_trichotomy x y with hlt | heq | hgt
  · exact absurd hlt h
  · exact Or.inr ⟨heq.1.symm, heq.2.1.symm, heq.2.2.symm⟩
  · exact Or.inl hgt

theorem candLe_miles_le (x y : Cand) (h : candLe x y) : x.out.miles ≤ y.out.miles := by
  rcases h with h | ⟨hm, _, _⟩
  · rcases h with h | ⟨hm, _⟩
    · exact le_of_lt h
    · exact le_of_eq hm
  · exact le_of_eq hm

theorem beats_iff_candLt (c b : Cand)
    (hcb : c.out.miles = b.out.miles ∨ eps < |c.out.miles - b.out.miles|) :
    beats c b = true ↔ candLt c b := by
  have heps : (0 : ℚ) < eps := by norm_num [eps]
  rcases hcb with heq | hgap
  · constructor
    · intro h
      simp only [beats, Bool.or_eq_true, Bool.and_eq_true, decide_eq_true_eq] at h
      rcases h with habs | ⟨-, hdays⟩
      · exact absurd habs (by rw [heq]; linarith)
      · exact Or.inr ⟨heq, by
          rcases hdays with h1 | ⟨h1, h2⟩
          · exact Or.inl h1
          · exact Or.inr ⟨h1, h2⟩⟩
    · intro h
      simp only [beats, Bool.or_eq_true, Bool.and_eq_true, decide_eq_true_eq]
      rcases h with hlt | ⟨-, hdays⟩
      · rw [heq] at hlt
        exact absurd hlt (lt_irrefl _)
      · refine Or.inr ⟨by rw [heq]; simpa using le_of_lt heps, ?_⟩
        rcases hdays with h1 | ⟨h1, h2⟩
        · exact Or.inl h1
        · exact Or.inr ⟨h1, h2⟩
  · rcases lt_trichotomy c.out.miles b.out.miles with hlt | heq2 | hgt
    · have habs : |c.out.miles - b.out.miles| = b.out.miles - c.out.miles := by
        rw [abs_sub_comm]
        exact abs_of_pos (by linarith)
      have hml : c.out.miles < b.out.miles - eps := by
        rw [habs] at hgap
        linarith
      constructor
      · intro _
        exact Or.inl hlt
      · intro _
        simp only [beats, Bool.or_eq_true, decide_eq_true_eq]
        exact Or.inl hml
    · rw [heq2] at hgap
      simp at hgap
      linarith
    · have habs : |c.out.miles - b.out.miles| = c.out.miles - b.out.miles :=
        abs_of_pos (by linarith)
      rw [habs] at hgap
      constructor
      · intro h
        simp only [beats, Bool.or_eq_true, Bool.and_eq_true, decide_eq_true_eq] at h
        rcases h with h | ⟨habs2, _⟩
        · exact absurd h (by linarith)
        · exact absurd habs2 (by linarith)
      · intro h
        rcases h with h | ⟨heq3, _⟩
        · exact absurd h (by linarith)
        · rw [heq3] at hgt
          exact absurd hgt (lt_irrefl _)

theorem scanFold_ne_none (cs : List Cand) (b : Cand) :
    cs.foldl
      (fun best c =>
        match best with
        | none => some c
        | some bb => if beats c bb then some c else some bb) (some b) ≠ none := by
  induction cs generalizing b with
  | nil => simp
  | cons c cs ih =>
    simp only [List.foldl_cons]
    by_cases h : beats c b = true
    · rw [if_pos h]
      exact ih c
    · rw [if_neg h]
      exact ih b

theorem scanFold_spec (S : List Cand) (HS : NoNearTies S) :
    ∀ (cs : List Cand), (∀ c ∈ cs, c ∈ S) → ∀ (b : Cand), b ∈ S → ∀ (m : Cand),
      cs.foldl
        (fun best c =>
          match best with
          | none => some c
          | some bb => if beats c bb then some c else some bb) (some b) = some m →
      (m = b ∨ m ∈ cs) ∧ candLe m b ∧ ∀ c ∈ cs, candLe m c := by
  intro cs
  induction cs with
  | nil =>
    intro _ b _ m hm
    simp only [List.foldl_nil] at hm
    obtain rfl := Option.some.inj hm
    exact ⟨Or.inl rfl, candLe_refl _, by intro c hc; cases hc⟩
  | cons c cs ih =>
    intro hsub b hb m hm
    have hcS : c ∈ S := hsub c (List.mem_cons_self c cs)
    have hsub2 : ∀ x ∈ cs, x ∈ S := fun x hx => hsub x (List.mem_cons_of_mem c hx)
    simp only [List.foldl_cons] at hm
    by_cases hbt : beats c b = true
    · rw [if_pos hbt] at hm
      have hlt : candLt c b := (beats_iff_candLt c b (HS c hcS b hb)).mp hbt
      rcases ih hsub2 c hcS m hm with ⟨hmem, hle, hall⟩
      refine ⟨?_, ?_, ?_⟩
      · rcases hmem with rfl | hmem
        · exact Or.inr (List.mem_cons_self m cs)
        · exact Or.inr (List.mem_cons_of_mem c hmem)
      · exact candLe_trans m c b hle (Or.inl hlt)
      · intro x hx
        rcases List.mem_cons.mp hx with rfl | hx
        · exact hle
        · exact hall x hx
    · rw [if_neg hbt] at hm
      have hnlt : ¬ candLt c b := fun hc =>
        hbt ((beats_iff_candLt c b (HS c hcS b hb)).mpr hc)
      have hbc : candLe b c := candLe_of_not_lt c b hnlt
      rcases ih hsub2 b hb m hm with ⟨hmem, hle, hall⟩
      refine ⟨?_, hle, ?_⟩
      · rcases hmem with rfl | hmem
        · exact Or.inl rfl
        · exact Or.inr (List.mem_cons_of_mem c hmem)
      · intro x hx
        rcases List.mem_cons.mp hx with rfl | hx
        · exact candLe_trans m b x hle hbc
        · exact hall x hx

theorem scanBest_spec (cs : List Cand) (H : NoNearTies cs) :
    (scanBest cs = none ↔ cs = []) ∧
    ∀ m, scanBest cs = some m → m ∈ cs ∧ ∀ c ∈ cs, candLe m c := by
  cases cs with
  | nil => simp [scanBest]
  | cons c rest =>
    constructor
    · constructor
      · intro h
        simp only [scanBest, List.foldl_cons] at h
        exact absurd h (scanFold_ne_none rest c)
      · intro h
        cases h
    · intro m hm
      simp only [scanBest, List.foldl_cons] at hm
      have hspec := scanFold_spec (c :: rest) H rest
        (fun x hx => List.mem_cons_of_mem c hx) c (List.mem_cons_self c rest) m hm
      refine ⟨?_, ?_⟩
      · rcases hspec.1 with rfl | hmem
        · exact List.mem_cons_self m rest
        · exact List.mem_cons_of_mem c hmem
      · intro x hx
        rcases List.mem_cons.mp hx with rfl | hx
        · exact hspec.2.1
        · exact hspec.2.2 x hx

theorem closestCands_ne_nil_sides (dist : Dist) (A B : List Event) (w : Int)
    (labelA labelB : String) (m : Cand) (hm : m ∈ closestCands dist A B w labelA labelB) :
    A.isEmpty = false ∧ B.isEmpty = false := by
  simp only [closestCands] at hm
  rcases List.mem_flatMap.mp hm with ⟨ea, hea, hinner⟩
  have hA : ea ∈ A := (List.mem_filter.mp hea).1
  rcases List.mem_filterMap.mp hinner with ⟨eb, heb, _⟩
  constructor
  · cases A with
    | nil => cases hA
    | cons _ _ => rfl
  · cases B with
    | nil => cases heb
    | cons _ _ => rfl

/-- C6 (amended): the closest-pair fallback uses the day window derived
from the raw requested days; it returns null exactly when no
cross-pick pair with usable dates and coordinates satisfies the day
constraint; and provided no two candidate pairs have distances within
the 1e-9 tolerance of each other without being equal, the returned
pair is lexicographically minimal: smallest distance, then smallest
day difference, then the earlier of the two dates, so in particular
its distance is the minimum over all candidate pairs. -/
theorem closest_pair_lex_min_no_near_ties
    (dist : Dist) (A B : List Event) (userDays : Int) (labelA labelB : String)
    (H : NoNearTies (closestCands dist A B (max 0 (closestWindowOf userDays - 1))
      labelA labelB)) :
    (findClosestPairWithinDays dist A B (max 0 (closestWindowOf userDays - 1)) labelA labelB
        = none ↔
      closestCands dist A B (max 0 (closestWindowOf userDays - 1)) labelA labelB = []) ∧
    ∀ m, scanBest (closestCands dist A B (max 0 (closestWindowOf userDays - 1))
        labelA labelB) = some m →
      findClosestPairWithinDays dist A B (max 0 (closestWindowOf userDays - 1)) labelA labelB
          = some m.out ∧
      m ∈ closestCands dist A B (max 0 (closestWindowOf userDays - 1)) labelA labelB ∧
      (∀ c ∈ closestCands dist A B (max 0 (closestWindowOf userDays - 1)) labelA labelB,
        candLe m c) ∧
      ∀ c ∈ closestCands dist A B (max 0 (closestWindowOf userDays - 1)) labelA labelB,
        m.out.miles ≤ c.out.miles := by
  constructor
  · by_cases hAB : (A.isEmpty || B.isEmpty) = true
    · constructor
      · intro _
        rcases Bool.or_eq_true_iff.mp hAB with hA | hB
        · have : A = [] := by
            cases A with
            | nil => rfl
            | cons _ _ => cases hA
          rw [this]
          rfl
        · have hBnil : B = [] := by
            cases B with
            | nil => rfl
            | cons _ _ => cases hB
          subst hBnil
          simp [closestCands]
      · intro _
        simp [findClosestPairWithinDays, hAB]
    · simp only [findClosestPairWithinDays, hAB, Bool.false_eq_true, if_false]
      constructor
      · intro h
        have hnone : scanBest (closestCands dist A B
            (max 0 (closestWindowOf userDays - 1)) labelA labelB) = none :=
          Option.map_eq_none.mp h
        exact ((scanBest_spec _ H).1).mp hnone
      · intro h
        rw [((scanBest_spec _ H).1).mpr h]
        rfl
  · intro m hm
    have hspec := (scanBest_spec _ H).2 m hm
    have hsides := closestCands_ne_nil_sides dist A B
      (max 0 (closestWindowOf userDays - 1)) labelA labelB m hspec.1
    have hAB : (A.isEmpty || B.isEmpty) = false := by
      rw [hsides.1, hsides.2]
      rfl
    refine ⟨?_, hspec.1, hspec.2, ?_⟩
    · simp only [findClosestPairWithinDays, hAB, Bool.false_eq_true, if_false, hm]
      rfl
    · intro c hc
      exact candLe_miles_le m c (hspec.2 c hc)

/-- Witness for C6 (amended) on a two-candidate input with distances
10 and 30: the theorem applies and the returned pair has distance 10
and day difference 5. -/
theorem closest_pair_lex_min_no_near_ties_witness :
    (findClosestPairWithinDays dist0 [cA] [cB1, cB3] (max 0 (closestWindowOf 10 - 1))
        "LA" "LB" = none ↔
      closestCands dist0 [cA] [cB1, cB3] (max 0 (closestWindowOf 10 - 1)) "LA" "LB" = []) ∧
    (findClosestPairWithinDays dist0 [cA] [cB1, cB3] (max 0 (closestWindowOf 10 - 1))
        "LA" "LB").map (fun o => (o.miles, o.daysApart)) = some (10, 5) :=
  ⟨(closest_pair_lex_min_no_near_ties dist0 [cA] [cB1, cB3] 10 "LA" "LB"
      (by unfold NoNearTies; decide)).1,
    by decide⟩

/-- Counterexample for C6 as stated: with a second candidate pair half
a tolerance farther but on the same date, the search returns the pair
of distance 10 + 5e-10 and zero days apart although a valid pair of
strictly smaller distance 10 exists, so the returned pair does not
have minimum distance. -/
theorem closest_pair_epsilon_counterexample :
    (findClosestPairWithinDays dist0 [cA] [cB1, cB2] 9 "LA" "LB").map
        (fun o => (o.miles, o.daysApart)) = some (10 + 1 / 2000000000, 0) ∧
    (closestCands dist0 [cA] [cB1, cB2] 9 "LA" "LB").map
        (fun c => (c.out.miles, c.out.daysApart)) = [(10, 5), (10 + 1 / 2000000000, 0)] ∧
    (10 : ℚ) < 10 + 1 / 2000000000 := by
  refine ⟨by decide, by decide, by decide⟩

/-- Counterexample for C9 as stated: two raw keyword picks, neither an
entity pick, with empty pools still produce the fallback. -/
theorem fallback_without_entity_picks_counterexample :
    (routeGET dist0 resolve0 (fun _ => []) q9).fallback.isSome = true ∧
    parsePickOrRaw "alpha" = some (.raw "alpha") ∧
    parsePickOrRaw "beta" = some (.raw "beta") ∧
    isEntityPick (.raw "alpha") = false ∧
    isEntityPick (.raw "beta") = false ∧
    (routeGET dist0 resolve0 (fun _ => []) q9).occurrences = [] := by
  refine ⟨by decide, by decide, by decide, rfl, rfl, by decide⟩

/-- Witness for C7: in the concrete run the coverage-two occurrence
stands after the coverage-three occurrence. -/
theorem occurrences_ranking_sorted_witness :
    occurrencePickCoverageCount
        ((buildOccurrencesByRadiusAndDays dist0 [fA, fB, fC, fD] 25 1).get ⟨2, by decide⟩) <
      occurrencePickCoverageCount
        ((buildOccurrencesByRadiusAndDays dist0 [fA, fB, fC, fD] 25 1).get ⟨0, by decide⟩) ∧
    (0 : Nat) < 2 :=
  ⟨by decide,
    (occurrences_ranking_sorted dist0 [fA, fB, fC, fD] 25 1).2 0 2 (by decide) (by decide)
      (by decide)⟩

end EventStack
